import Mathlib

/-!
Shallow embedding of the `aicmd` repository's core logic: the evidence-file
error resolver (`src/aicmd.py`), the command parser / classifier / safety
check (`src/utils/command_parser.py`, `src/core/command_processor.py`), and
the conversation context engine (`src/utils/history_manager.py`).

Python strings are modelled as Lean `String`; timestamps as `Int`; the
filesystem evidence store as an explicit record of optional files.
-/

set_option maxHeartbeats 1000000

namespace Aicmd

/-! ## Basic Python string helpers -/

/-- Does `sub` occur as a contiguous sublist of `s`? -/
def listInfix (sub : List Char) : List Char → Bool
  | [] => sub.isEmpty
  | c :: cs => sub.isPrefixOf (c :: cs) || listInfix sub cs

/-- Python `sub in s` substring test. -/
def pySubstr (sub s : String) : Bool :=
  listInfix sub.data s.data

/-- Python `str.isspace` characters relevant here (ASCII whitespace). -/
def pyIsSpace (c : Char) : Bool :=
  c = ' ' ∨ c = '\t' ∨ c = '\n' ∨ c = '\r' ∨ c = '\x0b' ∨ c = '\x0c'

/-- Python `s.startswith(pre)`. -/
def pyStartsWith (s pre : String) : Bool :=
  pre.data.isPrefixOf s.data

/-- Python `c in s` for a single character. -/
def pyContainsChar (s : String) (c : Char) : Bool :=
  s.data.contains c

/-- Python `str.strip()`: drop leading and trailing whitespace. -/
def pyStrip (s : String) : String :=
  String.mk (((s.data.dropWhile pyIsSpace).reverse.dropWhile pyIsSpace).reverse)

/-- Python `str.lower()` (ASCII). -/
def pyLower (s : String) : String :=
  String.mk (s.data.map Char.toLower)

def wordsAux : List Char → List Char → List String
  | [], cur => if cur.isEmpty then [] else [String.mk cur.reverse]
  | c :: cs, cur =>
      if pyIsSpace c then
        if cur.isEmpty then wordsAux cs []
        else String.mk cur.reverse :: wordsAux cs []
      else wordsAux cs (c :: cur)

/-- Python `str.split()` with no argument: split on whitespace runs,
dropping empty pieces. -/
def pySplitWs (s : String) : List String :=
  wordsAux s.data []

/-- Python `' '.join(xs)`. -/
def pyJoinSpace : List String → String
  | [] => ""
  | x :: rest => rest.foldl (fun a b => a ++ " " ++ b) x

/-- Python `max(x :: xs, key := f)`: keeps the current best and replaces it
only on a strictly greater key, so ties go to the earliest element. -/
def pyMaxBy {α β : Type} [LinearOrder β] (f : α → β) (x : α) (xs : List α) : α :=
  xs.foldl (fun b y => if f y > f b then y else b) x

/-! ## shlex model (POSIX mode), as used by `parse_command`.

`shlex.split` whitespace is the fixed set space/tab/CR/LF.  Outside quotes a
backslash escapes the next character; single quotes are verbatim; inside
double quotes a backslash escapes only `"` and `\`.  An unclosed quote or a
trailing escape raises `ValueError`, modelled as `none`. -/

def shlexWs : List Char := [' ', '\t', '\r', '\n']

inductive ShlexMode where
  | normal
  | escNormal
  | single
  | double
  | escDouble
deriving DecidableEq, Repr

def shlexRun : List Char → ShlexMode → List Char → Bool → List String → Option (List String)
  | [], .normal, cur, started, acc =>
      some (acc ++ if started then [String.mk cur.reverse] else [])
  | [], _, _, _, _ => none
  | c :: cs, .normal, cur, started, acc =>
      if c ∈ shlexWs then
        if started then shlexRun cs .normal [] false (acc ++ [String.mk cur.reverse])
        else shlexRun cs .normal cur started acc
      else if c = '\'' then shlexRun cs .single cur true acc
      else if c = '"' then shlexRun cs .double cur true acc
      else if c = '\\' then shlexRun cs .escNormal cur true acc
      else shlexRun cs .normal (c :: cur) true acc
  | c :: cs, .escNormal, cur, _, acc => shlexRun cs .normal (c :: cur) true acc
  | c :: cs, .single, cur, _, acc =>
      if c = '\'' then shlexRun cs .normal cur true acc
      else shlexRun cs .single (c :: cur) true acc
  | c :: cs, .double, cur, _, acc =>
      if c = '"' then shlexRun cs .normal cur true acc
      else if c = '\\' then shlexRun cs .escDouble cur true acc
      else shlexRun cs .double (c :: cur) true acc
  | c :: cs, .escDouble, cur, _, acc =>
      if c = '"' ∨ c = '\\' then shlexRun cs .double (c :: cur) true acc
      else shlexRun cs .double (c :: '\\' :: cur) true acc

/-- `shlex.split(command)`; `none` models the `ValueError` branch. -/
def shlexSplit (s : String) : Option (List String) :=
  shlexRun s.data .normal [] false []

/-! ## `CommandParser.parse_command` -/

structure ParsedCommand where
  command : String
  base_command : String
  arguments : List String
  flags : List String
  options : List (String × String)
  redirections : List (String × String)
deriving DecidableEq, Repr

/-- Python dict assignment `options[key] = value`: update in place if the key
is present, else append. -/
def insertOption : List (String × String) → String → String → List (String × String)
  | [], k, v => [(k, v)]
  | (k0, v0) :: rest, k, v =>
      if k0 = k then (k0, v) :: rest else (k0, v0) :: insertOption rest k v

/-- `part.split('=', 1)`: key before the first `=`, value after it. -/
def splitEq (s : String) : String × String :=
  (String.mk (s.data.takeWhile (fun c => c ≠ '=')),
   String.mk ((s.data.dropWhile (fun c => c ≠ '=')).drop 1))

def redirOps : List String := [">", ">>", "<", "|", "2>", "2>>", "&>", "&>>"]

/-- The token-classification loop of `parse_command` (the `while i < len(parts)`
loop), consuming one or two tokens per step. -/
def classifyLoop : List String → ParsedCommand → ParsedCommand
  | [], acc => acc
  | p :: rest, acc =>
      if p ∈ redirOps then
        match rest with
        | q :: rest' =>
            classifyLoop rest' { acc with redirections := acc.redirections ++ [(p, q)] }
        | [] =>
            classifyLoop [] { acc with redirections := acc.redirections ++ [(p, "")] }
      else if pyStartsWith p "-" then
        if pyContainsChar p '=' then
          let kv := splitEq p
          classifyLoop rest { acc with options := insertOption acc.options kv.1 kv.2 }
        else
          match rest with
          | q :: rest' =>
              if ¬ pyStartsWith q "-" then
                classifyLoop rest' { acc with options := insertOption acc.options p q }
              else
                classifyLoop (q :: rest') { acc with flags := acc.flags ++ [p] }
          | [] => classifyLoop [] { acc with flags := acc.flags ++ [p] }
      else
        classifyLoop rest { acc with arguments := acc.arguments ++ [p] }

def emptyParsed : ParsedCommand :=
  { command := "", base_command := "", arguments := [], flags := [],
    options := [], redirections := [] }

/-- `CommandParser.parse_command`. -/
def parse_command (command : String) : ParsedCommand :=
  let parts := (shlexSplit command).getD (pySplitWs command)
  match parts with
  | [] => emptyParsed
  | base :: rest =>
      classifyLoop rest
        { command := command, base_command := base, arguments := [], flags := [],
          options := [], redirections := [] }

/-! ## `CommandParser.suggest_command_fixes` and its static tables -/

/-- The `alternatives` table of `_suggest_command_alternatives`. -/
def alternativesTable : List (String × List String) :=
  [("ls", ["dir", "find . -maxdepth 1"]),
   ("ll", ["ls -la", "ls -l"]),
   ("cat", ["type", "more", "less"]),
   ("grep", ["findstr", "select-string"]),
   ("ps", ["Get-Process", "tasklist"]),
   ("kill", ["Stop-Process", "taskkill"]),
   ("wget", ["curl -O", "Invoke-WebRequest"]),
   ("curl", ["wget", "Invoke-RestMethod"]),
   ("python", ["python3", "py"]),
   ("pip", ["pip3", "python -m pip"]),
   ("node", ["nodejs"]),
   ("npm", ["yarn", "pnpm"]),
   ("git", ["Install git first"]),
   ("docker", ["Install Docker first"]),
   ("vim", ["nano", "code", "notepad"]),
   ("nano", ["vim", "code", "notepad"])]

/-- The `typo_corrections` table of `_suggest_command_alternatives`. -/
def typoCorrections : List (String × String) :=
  [("gti", "git"),
   ("cd..", "cd .."),
   ("ks", "ls"),
   ("sl", "ls"),
   ("clar", "clear"),
   ("claer", "clear"),
   ("grpe", "grep"),
   ("mkdi", "mkdir"),
   ("toutch", "touch")]

def lookupAssoc {α : Type} (tbl : List (String × α)) (k : String) : Option α :=
  (tbl.find? (fun p => p.1 = k)).map Prod.snd

/-- `CommandParser._suggest_command_alternatives`. -/
def suggest_command_alternatives (command : String) : List String :=
  let suggestions := (lookupAssoc alternativesTable command).getD []
  match lookupAssoc typoCorrections command with
  | some corr => corr :: suggestions
  | none => suggestions

/-- `CommandParser._suggest_file_fixes`. -/
def suggest_file_fixes (parsed : ParsedCommand) : List String :=
  parsed.arguments.flatMap (fun arg =>
    if arg ≠ "" ∧ ¬ pyStartsWith arg "-" then
      (if pyContainsChar arg '.' then ["touch " ++ arg] else ["mkdir -p " ++ arg]) ++
      ["find . -name '*" ++ arg ++ "*' -type f", "ls -la | grep " ++ arg]
    else [])

/-- `CommandParser._suggest_package_install`. -/
def suggest_package_install (package_manager : String) (packages : List String) :
    List String :=
  packages.flatMap (fun pkg =>
    if pkg ≠ "" ∧ ¬ pyStartsWith pkg "-" then
      if package_manager = "apt" ∨ package_manager = "apt-get" then
        ["sudo apt update && sudo apt install " ++ pkg]
      else if package_manager = "yum" then ["sudo yum install " ++ pkg]
      else if package_manager = "dnf" then ["sudo dnf install " ++ pkg]
      else if package_manager = "brew" then ["brew install " ++ pkg]
      else if package_manager = "pip" then ["pip install " ++ pkg]
      else if package_manager = "npm" then ["npm install " ++ pkg]
      else []
    else [])

/-- `CommandParser.suggest_command_fixes`. -/
def suggest_command_fixes (failed_command : String) (error_category : String) :
    List String :=
  let parsed := parse_command failed_command
  let base_cmd := parsed.base_command
  if error_category = "command_not_found" then
    suggest_command_alternatives base_cmd
  else if error_category = "permission_denied" then
    ["sudo " ++ failed_command, "chmod +x " ++ pyJoinSpace parsed.arguments]
  else if error_category = "file_not_found" then
    suggest_file_fixes parsed
  else if error_category = "package_not_found" then
    suggest_package_install base_cmd parsed.arguments
  else []

/-! ## `ConversationContext` (history_manager.py) -/

structure QAPair where
  question : String
  answer : String
  has_code : Bool
  timestamp : Int
deriving DecidableEq, Repr

structure ConversationContext where
  conversation_memory : List QAPair
  current_topic : Option String
deriving DecidableEq, Repr

def emptyContext : ConversationContext :=
  { conversation_memory := [], current_topic := none }

/-- Python `xs[-n:]`. -/
def lastN {α : Type} (n : Nat) (xs : List α) : List α :=
  xs.drop (xs.length - n)

/-- The 7 fixed topic buckets of `_update_current_topic`, in declaration
order. -/
def topicsTable : List (String × List String) :=
  [("git", ["git", "repository", "commit", "branch", "merge", "push", "pull"]),
   ("python", ["python", "django", "flask", "pandas", "numpy", "pip"]),
   ("javascript", ["javascript", "node", "npm", "react", "vue", "angular"]),
   ("docker", ["docker", "container", "image", "dockerfile", "compose"]),
   ("linux", ["linux", "ubuntu", "bash", "shell", "terminal", "command"]),
   ("database", ["sql", "database", "mysql", "postgresql", "mongodb", "query"]),
   ("web", ["http", "api", "rest", "web", "server", "client", "html", "css"])]

/-- Keyword score of one topic bucket over a list of questions: one point per
(question, keyword) pair with the keyword a substring of the lowered
question. -/
def topicScore (keywords : List String) (questions : List String) : Nat :=
  questions.foldl
    (fun acc q =>
      keywords.foldl (fun a kw => if pySubstr kw (pyLower q) then a + 1 else a) acc)
    0

def topicScores (questions : List String) : List (String × Nat) :=
  topicsTable.map (fun p => (p.1, topicScore p.2 questions))

/-- The questions `_update_current_topic` actually scores:
`conversation_memory[-3:]`. -/
def recentQuestions (ctx : ConversationContext) : List String :=
  (lastN 3 ctx.conversation_memory).map QAPair.question

/-- `max(topic_scores.values())` (all scores are naturals, so the `0` seed is
neutral). -/
def maxScore (scores : List (String × Nat)) : Nat :=
  (scores.map Prod.snd).foldl max 0

/-- `max(topic_scores, key=topic_scores.get)`: first key attaining the
maximal value; `none` on an empty dict (where Python would raise). -/
def pyMaxByList (scores : List (String × Nat)) : Option String :=
  match scores with
  | [] => none
  | s :: ss => some (pyMaxBy Prod.snd s ss).1

/-- `ConversationContext._update_current_topic`. -/
def update_current_topic (ctx : ConversationContext) : ConversationContext :=
  match ctx.conversation_memory with
  | [] => ctx
  | _ =>
    let scores := topicScores (recentQuestions ctx)
    if scores ≠ [] ∧ 0 < maxScore scores then
      { ctx with current_topic := pyMaxByList scores }
    else ctx

/-- The memory update of `add_qa_pair`: append, then keep only the last
`max_context_messages = 10` entries. -/
def cappedAppend (mem : List QAPair) (qa : QAPair) : List QAPair :=
  let mem := mem ++ [qa]
  if 10 < mem.length then mem.drop (mem.length - 10) else mem

/-- `ConversationContext.add_qa_pair`. -/
def add_qa_pair (ctx : ConversationContext) (question answer : String)
    (has_code : Bool) (timestamp : Int) : ConversationContext :=
  update_current_topic
    { ctx with
      conversation_memory :=
        cappedAppend ctx.conversation_memory
          { question := question, answer := answer, has_code := has_code,
            timestamp := timestamp } }

/-- Record a whole sequence of exchanges in order. -/
def recordAll (ctx : ConversationContext) (qas : List QAPair) : ConversationContext :=
  qas.foldl (fun c e => add_qa_pair c e.question e.answer e.has_code e.timestamp) ctx

/-! ## Evidence store and the error-resolver strategy chain (aicmd.py)

The filesystem evidence store is modelled as a record of the fixed temp-file
paths (`/tmp/aicmd_last_error`, `/tmp/aicmd_simple_error`,
`/tmp/aicmd_error_output`, `/tmp/aicmd_error_<pid>`, `/tmp/aicmd_last_command`,
`/tmp/aicmd_last_exit_code`, `/tmp/aicmd_current_command`) plus the
`aicmd_stderr_*` glob, together with the clock and the external shell
accessors used by strategies 2 and 3. -/

structure FileRec where
  content : String
  mtime : Int
deriving DecidableEq, Repr

structure World where
  lastError : Option FileRec
  simpleError : Option FileRec
  errorOutput : Option FileRec
  errorPid : Option FileRec
  lastCommand : Option FileRec
  lastExitCode : Option FileRec
  currentCommand : Option FileRec
  stderrFiles : List FileRec
  now : Int
  histCmd : Option String
  histCode : Option Int
  shell : String
  probe : Option (Int × String)
deriving DecidableEq, Repr

/-- `cleanup_temp_files`: removes the error-family files (the per-process
`/tmp/aicmd_error_<pid>` file is not in its list). -/
def cleanup_temp_files (w : World) : World :=
  { w with lastError := none, simpleError := none, lastCommand := none,
           lastExitCode := none, currentCommand := none, errorOutput := none }

/-- The candidate files scanned by `get_error_from_temp_file`, in order; only
existing files are candidates. -/
def tempCandidates (w : World) : List FileRec :=
  [w.lastError, w.simpleError, w.errorOutput, w.errorPid].filterMap id

/-- The per-file body of the `get_error_from_temp_file` loop. -/
def scanTemp (w : World) : List FileRec → Option (String × World)
  | [] => none
  | f :: rest =>
      if w.now - f.mtime > 30 then scanTemp w rest
      else
        let error_content := pyStrip f.content
        if error_content = "" then scanTemp w rest
        else
          let enhanced :=
            match w.lastCommand with
            | some cf =>
                let full_command := pyStrip cf.content
                if full_command ≠ "" ∧ ¬ pySubstr full_command error_content then
                  error_content ++ "\nFailed command: " ++ full_command
                else error_content
            | none => error_content
          some (enhanced, cleanup_temp_files w)

/-- Strategy 1, `get_error_from_temp_file`: returns the reported error text
and the world after `cleanup_temp_files`. -/
def get_error_from_temp_file (w : World) : Option (String × World) :=
  scanTemp w (tempCandidates w)

/-- The `TerminalUtils.get_last_command()` fallback branch of strategy 2. -/
def histFallback (w : World) : Option String :=
  match w.histCmd, w.histCode with
  | some c, some k =>
      if c ≠ "" ∧ k ≠ 0 then
        if k = 127 then some ("Command '" ++ c ++ "' not found")
        else some ("Command '" ++ c ++ "' failed with exit code " ++ toString k)
      else none
  | _, _ => none

/-- Strategy 2, `get_error_from_shell_history`. -/
def get_error_from_shell_history (w : World) : Option String :=
  match w.lastCommand with
  | some cf =>
      let last_command := pyStrip cf.content
      if last_command ≠ "" then
        match w.lastExitCode with
        | some ef =>
            if pyStrip ef.content = "127" then
              some ("Command '" ++ last_command ++ "' not found")
            else some ("Command '" ++ last_command ++ "' failed")
        | none => some ("Command '" ++ last_command ++ "' failed")
      else histFallback w
  | none => histFallback w

/-- Strategy 3, `get_error_from_exit_code`: the subprocess probe result is
`(returncode, stdout)`, `none` modelling timeout or spawn failure. -/
def get_error_from_exit_code (w : World) : Option String :=
  if w.shell = "bash" ∨ w.shell = "zsh" ∨ w.shell = "fish" then
    match w.probe with
    | some (rc, out) =>
        if rc = 0 ∧ pyStrip out ≠ "0" then
          some ("Last command failed with exit code " ++ pyStrip out)
        else none
    | none => none
  else none

/-- Strategy 4, `get_error_from_stderr_capture`: pick the most recently
modified `aicmd_stderr_*` file, use it only if younger than 60 seconds. -/
def get_error_from_stderr_capture (w : World) : Option String :=
  match w.stderrFiles with
  | [] => none
  | f :: fs =>
      let latest := pyMaxBy FileRec.mtime f fs
      if w.now - latest.mtime < 60 then
        let stderr_content := pyStrip latest.content
        if stderr_content ≠ "" then some stderr_content else none
      else none

/-- First-success-wins reducer over the strategy chain of `detect_last_error`:
an exception (`Except.error`) or an empty/absent result falls through to the
next strategy. -/
def tryStrategies : List (World → Except String (Option String)) → World → Option String
  | [], _ => none
  | s :: rest, w =>
      match s w with
      | .error _ => tryStrategies rest w
      | .ok none => tryStrategies rest w
      | .ok (some r) => if r = "" then tryStrategies rest w else some r

/-- Strategy 1 as an element of the chain (its error string only). -/
def strat1E (w : World) : Except String (Option String) :=
  .ok ((get_error_from_temp_file w).map Prod.fst)

def strat2E (w : World) : Except String (Option String) :=
  .ok (get_error_from_shell_history w)

def strat3E (w : World) : Except String (Option String) :=
  .ok (get_error_from_exit_code w)

def strat4E (w : World) : Except String (Option String) :=
  .ok (get_error_from_stderr_capture w)

/-- `detect_last_error`: the four strategies in their fixed order. -/
def detect_last_error (w : World) : Option String :=
  tryStrategies [strat1E, strat2E, strat3E, strat4E] w

/-! ## A small regex engine for `is_safe_command`

The deny-list of `CommandParser.is_safe_command` is a list of Python regexes
searched with `re.IGNORECASE`.  Each is transcribed into the abstract syntax
below; matching is by Brzozowski derivatives, and `re.search` semantics is
"some suffix has a matching prefix". -/

inductive RE where
  | emp
  | eps
  | ch (p : Char → Bool)
  | alt (a b : RE)
  | seq (a b : RE)
  | star (a : RE)

def RE.nullable : RE → Bool
  | .emp => false
  | .eps => true
  | .ch _ => false
  | .alt a b => a.nullable || b.nullable
  | .seq a b => a.nullable && b.nullable
  | .star _ => true

def RE.deriv : RE → Char → RE
  | .emp, _ => .emp
  | .eps, _ => .emp
  | .ch p, c => if p c then .eps else .emp
  | .alt a b, c => .alt (a.deriv c) (b.deriv c)
  | .seq a b, c =>
      if a.nullable then .alt (.seq (a.deriv c) b) (b.deriv c)
      else .seq (a.deriv c) b
  | .star a, c => .seq (a.deriv c) (.star a)

/-- Does some prefix of `cs` match `r`? -/
def matchesPrefix (r : RE) : List Char → Bool
  | [] => r.nullable
  | c :: cs => r.nullable || matchesPrefix (r.deriv c) cs

/-- `re.search(r, s)`: some suffix of `s` has a prefix matching `r`. -/
def reSearchAux (r : RE) : List Char → Bool
  | [] => r.nullable
  | c :: cs => matchesPrefix r (c :: cs) || reSearchAux r cs

def reSearch (r : RE) (s : String) : Bool :=
  reSearchAux r s.data

/-- A literal character under `re.IGNORECASE`. -/
def chC (c : Char) : RE := .ch (fun x => x.toLower = c.toLower)

/-- A literal string under `re.IGNORECASE`. -/
def lit (s : String) : RE := s.data.foldr (fun c r => .seq (chC c) r) .eps

/-- `\s` (ASCII). -/
def wsC : RE := .ch pyIsSpace

/-- `.` (no DOTALL: anything but a newline). -/
def dotC : RE := .ch (fun c => c ≠ '\n')

def plusRE (r : RE) : RE := .seq r (.star r)

/-- `[A-Z]` under `re.IGNORECASE`. -/
def classAZ : RE := .ch (fun c => ('A' ≤ c ∧ c ≤ 'Z') ∨ ('a' ≤ c ∧ c ≤ 'z'))

/-- `[06]`. -/
def class06 : RE := .ch (fun c => c = '0' ∨ c = '6')

def seqs : List RE → RE := fun rs => rs.foldr .seq .eps

/-- The `dangerous_patterns` list of `is_safe_command`, each with its source
text (used in the returned reason). -/
def dangerousPatterns : List (RE × String) :=
  [(seqs [lit "rm", plusRE wsC, lit "-rf", plusRE wsC, lit "/"], "rm\\s+-rf\\s+/"),
   (seqs [lit "rm", plusRE wsC, lit "-rf", plusRE wsC, lit "*"], "rm\\s+-rf\\s+\\*"),
   (seqs [lit "dd", plusRE wsC, lit "if="], "dd\\s+if="),
   (seqs [lit "mkfs", lit "."], "mkfs\\."),
   (lit "fdisk", "fdisk"),
   (seqs [lit "format", plusRE wsC, classAZ, lit ":"], "format\\s+[A-Z]:"),
   (lit "shutdown", "shutdown"),
   (lit "reboot", "reboot"),
   (lit "halt", "halt"),
   (seqs [lit "init", plusRE wsC, class06], "init\\s+[06]"),
   (seqs [lit ":()\x7b", .star wsC, lit ":|:&", .star wsC, lit "\x7d", .star wsC,
          lit ";:"],
    ":\\(\\)\\\x7b\\s*:\\|:\\&\\s*\\\x7d\\s*;:"),
   (seqs [lit "chmod", plusRE wsC, lit "-R", plusRE wsC, lit "777", plusRE wsC,
          lit "/"],
    "chmod\\s+-R\\s+777\\s+/"),
   (seqs [lit "chown", plusRE wsC, lit "-R"], "chown\\s+-R"),
   (seqs [lit "curl", .star dotC, lit "|", .star wsC, lit "sh"], "curl.*\\|\\s*sh"),
   (seqs [lit "wget", .star dotC, lit "|", .star wsC, lit "sh"], "wget.*\\|\\s*sh")]

/-- `CommandParser.is_safe_command`. -/
def is_safe_command (command : String) : Bool × String :=
  match dangerousPatterns.find? (fun p => reSearch p.1 command) with
  | some p => (false, "Potentially dangerous command detected: " ++ p.2)
  | none => (true, "Command appears safe")

/-! ## `CommandProcessor.validate_command_safety` (substring based) -/

def dangerousSubstrings : List String :=
  ["rm -rf /", "rm -rf *", "dd if=", "mkfs.", "fdisk", "format", "shutdown",
   "reboot", "halt", "init 0", "init 6", ":()\x7b :|:& \x7d;:", "chmod -R 777 /",
   "chown -R", "sudo su", "curl | sh", "wget | sh"]

/-- `CommandProcessor.validate_command_safety`. -/
def validate_command_safety (command : String) : Bool × String :=
  let command_lower := pyLower command
  match dangerousSubstrings.find? (fun p => pySubstr p command_lower) with
  | some p =>
      (false, "Potentially dangerous command detected: contains '" ++ p ++ "'")
  | none =>
      if pySubstr " > /dev/" command_lower ∨ pySubstr " >> /dev/" command_lower then
        (false, "Command attempts to write to device files")
      else if (pySubstr "curl" command_lower ∨ pySubstr "wget" command_lower) ∧
              (pyContainsChar command '|' ∨ pyContainsChar command ';') then
        (false, "Command downloads and executes content from the internet")
      else (true, "Command appears safe")

/-! ## Derived notions and concrete test fixtures -/

/-- A world with no evidence at all: files absent, no shell history, an
unsupported shell, no probe output. -/
def emptyWorld : World :=
  { lastError := none, simpleError := none, errorOutput := none,
    errorPid := none, lastCommand := none, lastExitCode := none,
    currentCommand := none, stderrFiles := [], now := 100, histCmd := none,
    histCode := none, shell := "sh", probe := none }

/-- Fixture for C1: a fresh `LastError` record together with a fresh
per-process `/tmp/aicmd_error_<pid>` record. -/
def c1World : World :=
  { emptyWorld with lastError := some { content := "boom", mtime := 0 },
                    errorPid := some { content := "pid error", mtime := 0 },
                    now := 5 }

/-- Fixture for C1's witness: a fresh `LastError` record and no per-process
record. -/
def c1WitnessWorld : World :=
  { emptyWorld with lastError := some { content := "boom", mtime := 0 },
                    now := 5 }

/-- Fixture for C2: a `LastError` record aged exactly 30 seconds. -/
def c2World : World :=
  { emptyWorld with lastError := some { content := "stale", mtime := 0 },
                    now := 30 }

/-- Fixture for C2's witness: a `LastError` record aged 31 seconds and a
stderr capture aged exactly 60 seconds. -/
def c2WitnessWorld : World :=
  { emptyWorld with lastError := some { content := "old", mtime := 29 },
                    stderrFiles := [{ content := "late", mtime := 0 }],
                    now := 60 }

/-- Fixtures for C8: three git-flavoured questions and an unrelated one. -/
def gitQ1 : QAPair := { question := "how do I use git", answer := "a1", has_code := false, timestamp := 1 }

def gitQ2 : QAPair := { question := "how to commit changes", answer := "a2", has_code := false, timestamp := 2 }

def gitQ3 : QAPair := { question := "create a branch", answer := "a3", has_code := false, timestamp := 3 }

/-! ## Helper lemmas -/

theorem pyMaxBy_mem {α β : Type} [LinearOrder β] (f : α → β) (x : α) (xs : List α) :
    pyMaxBy f x xs ∈ x :: xs := by
  induction xs generalizing x with
  | nil => simp [pyMaxBy]
  | cons y ys ih =>
    simp only [pyMaxBy, List.foldl_cons]
    by_cases h : f y > f x
    · simp only [h, if_pos]
      have := ih y
      simp only [pyMaxBy] at this
      rcases List.mem_cons.mp this with h1 | h1
      · simp [h1]
      · simp [List.mem_cons, h1]
    · simp only [h, if_neg, not_false_iff]
      have := ih x
      simp only [pyMaxBy] at this
      rcases List.mem_cons.mp this with h1 | h1
      · simp [h1]
      · simp [List.mem_cons, h1]

theorem pyMaxBy_le {α β : Type} [LinearOrder β] (f : α → β) (x : α) (xs : List α) :
    ∀ y ∈ x :: xs, f y ≤ f (pyMaxBy f x xs) := by
  induction xs generalizing x with
  | nil => simp [pyMaxBy]
  | cons y ys ih =>
    intro z hz
    simp only [pyMaxBy, List.foldl_cons]
    rcases List.mem_cons.mp hz with rfl | hz'
    · by_cases h : f y > f z
      · simp only [h, if_pos]
        have := ih y y (List.mem_cons_self y ys)
        simp only [pyMaxBy] at this
        exact le_of_lt (lt_of_lt_of_le h this)
      · simp only [h, if_neg, not_false_iff]
        exact ih z z (List.mem_cons_self z ys)
    · rcases List.mem_cons.mp hz' with rfl | hz''
      · by_cases h : f z > f x
        · simp only [h, if_pos]
          exact ih z z (List.mem_cons_self z ys)
        · simp only [h, if_neg, not_false_iff]
          have := ih x x (List.mem_cons_self x ys)
          simp only [pyMaxBy] at this
          exact le_trans (not_lt.mp h) this
      · by_cases h : f y > f x
        · simp only [h, if_pos]
          exact ih y z (List.mem_cons_of_mem y hz'')
        · simp only [h, if_neg, not_false_iff]
          exact ih x z (List.mem_cons_of_mem x hz'')

theorem pyMaxBy_eq_or_lt {α β : Type} [LinearOrder β] (f : α → β) (x : α)
    (xs : List α) : pyMaxBy f x xs = x ∨ f x < f (pyMaxBy f x xs) := by
  induction xs generalizing x with
  | nil => simp [pyMaxBy]
  | cons y ys ih =>
    simp only [pyMaxBy, List.foldl_cons]
    by_cases h : f y > f x
    · right
      rcases ih y with h1 | h1
      · simp only [h, if_pos]
        simp only [pyMaxBy] at h1
        rw [h1]; exact h
      · simp only [h, if_pos]
        simp only [pyMaxBy] at h1
        exact lt_trans h h1
    · simp only [h, if_neg, not_false_iff]
      exact ih x

theorem foldl_max_le (l : List Nat) (a m : Nat) (ha : a ≤ m)
    (hall : ∀ v ∈ l, v ≤ m) : l.foldl max a ≤ m := by
  induction l generalizing a with
  | nil => simpa using ha
  | cons v vs ih =>
    simp only [List.foldl_cons]
    exact ih (max a v) (max_le ha (hall v (List.mem_cons_self v vs)))
      (fun u hu => hall u (List.mem_cons_of_mem v hu))

theorem le_foldl_max (l : List Nat) (a : Nat) :
    a ≤ l.foldl max a ∧ ∀ v ∈ l, v ≤ l.foldl max a := by
  induction l generalizing a with
  | nil => simp
  | cons v vs ih =>
    simp only [List.foldl_cons]
    refine ⟨le_trans (le_max_left a v) (ih (max a v)).1, ?_⟩
    intro u hu
    rcases List.mem_cons.mp hu with rfl | hu'
    · exact le_trans (le_max_right a u) (ih (max a u)).1
    · exact (ih (max a v)).2 u hu'

theorem foldl_max_eq (l : List Nat) (m : Nat) (hm : m ∈ l)
    (hall : ∀ v ∈ l, v ≤ m) : l.foldl max 0 = m :=
  le_antisymm (foldl_max_le l 0 m (Nat.zero_le m) hall) ((le_foldl_max l 0).2 m hm)

theorem pyMaxBy_first (f : α → Nat) (x : α) (xs : List α) :
    (x :: xs).find? (fun y => f y = f (pyMaxBy f x xs)) = some (pyMaxBy f x xs) := by
  induction xs generalizing x with
  | nil => simp [pyMaxBy]
  | cons y ys ih =>
    have hstep : pyMaxBy f x (y :: ys) = pyMaxBy f (if f y > f x then y else x) ys := by
      simp [pyMaxBy]
    by_cases h : f y > f x
    · have hr : pyMaxBy f x (y :: ys) = pyMaxBy f y ys := by
        rw [hstep, if_pos h]
      have hy_le : f y ≤ f (pyMaxBy f y ys) :=
        pyMaxBy_le f y ys y (List.mem_cons_self y ys)
      have hx_ne : ¬ (f x = f (pyMaxBy f x (y :: ys))) := by
        rw [hr]
        exact ne_of_lt (lt_of_lt_of_le h hy_le)
      rw [hr]
      rw [List.find?_cons_of_neg _ (by simpa using (hr ▸ hx_ne))]
      exact ih y
    · have hr : pyMaxBy f x (y :: ys) = pyMaxBy f x ys := by
        rw [hstep, if_neg h]
      by_cases hx : f x = f (pyMaxBy f x ys)
      · have hxx : pyMaxBy f x ys = x := by
          rcases pyMaxBy_eq_or_lt f x ys with h1 | h1
          · exact h1
          · exact absurd hx (ne_of_lt h1)
        rw [hr, hxx]
        exact List.find?_cons_of_pos _ (by simp)
      · have hy_ne : ¬ (f y = f (pyMaxBy f x ys)) := by
          intro hy
          have hx_le : f x ≤ f (pyMaxBy f x ys) :=
            pyMaxBy_le f x ys x (List.mem_cons_self x ys)
          have h1 : f y ≤ f x := not_lt.mp h
          have h2 : f (pyMaxBy f x ys) ≤ f x := hy ▸ h1
          exact hx (le_antisymm hx_le h2)
        have ihx := ih x
        rw [List.find?_cons_of_neg _ (by simpa using hx)] at ihx
        rw [hr]
        rw [List.find?_cons_of_neg _ (by simpa using hx)]
        rw [List.find?_cons_of_neg _ (by simpa using hy_ne)]
        exact ihx

theorem shlexRun_all_ws : ∀ (cs : List Char) (cur : List Char) (acc : List String),
    (∀ c ∈ cs, c ∈ shlexWs) → shlexRun cs .normal cur false acc = some acc := by
  intro cs
  induction cs with
  | nil => intro cur acc _; simp [shlexRun]
  | cons c cs ih =>
    intro cur acc h
    have hc : c ∈ shlexWs := h c (List.mem_cons_self c cs)
    simp only [shlexRun, if_pos hc]
    exact ih cur acc (fun d hd => h d (List.mem_cons_of_mem c hd))

/-- C9: `parse_command` applied to an empty or whitespace-only command string
returns, without failing, the empty `ParsedCommand`: empty base command and
empty arguments, flags, options and redirections (whitespace here is the
`shlex` whitespace set: space, tab, CR, LF). -/
theorem C9_tokenize_whitespace_empty (s : String)
    (h : ∀ c ∈ s.data, c ∈ shlexWs) : parse_command s = emptyParsed := by
  have hsplit : shlexSplit s = some [] := shlexRun_all_ws s.data [] [] h
  simp [parse_command, hsplit]

/-- Witness for C9 at the concrete whitespace-only string `" \t "` (and, via
the same record, the empty string). -/
theorem C9_tokenize_whitespace_empty_witness :
    parse_command " \t " = emptyParsed ∧ parse_command "" = emptyParsed :=
  ⟨C9_tokenize_whitespace_empty " \t " (by decide),
   C9_tokenize_whitespace_empty "" (by decide)⟩

theorem startsDash_not_redir (p : String) (h : pyStartsWith p "-" = true) :
    p ∉ redirOps := by
  intro hp
  simp only [redirOps, List.mem_cons, List.not_mem_nil, or_false] at hp
  rcases hp with rfl | rfl | rfl | rfl | rfl | rfl | rfl | rfl <;> simp_all [pyStartsWith]

/-- C5 counterexample: on `"echo a > b"` the token `>` is not classified as a
positional argument (as the claim's rule list would demand for a
non-`-`-prefixed token); it is consumed together with `b` as a redirection. -/
theorem C5_counterexample :
    (parse_command "echo a > b").arguments = ["a"] ∧
    ">" ∉ (parse_command "echo a > b").arguments ∧
    (parse_command "echo a > b").redirections = [(">", "b")] := by
  refine ⟨?_, ?_, ?_⟩ <;> decide

/-- C5 (amended): `tokenize("grep -r --include=*.py 'foo' src")` yields base
command `grep`, flag `-r`, option `--include → *.py`, and arguments `foo`,
`src` in order; and for every token after the first: a redirection-operator
token consumes itself plus the following token (defaulting to an empty
target), a `-`-prefixed token containing `=` splits into a key/value option,
a `-`-prefixed token followed by a non-`-`-prefixed token consumes both as a
key/value option, a remaining `-`-prefixed token is a flag, and anything else
(not a redirection operator) is a positional argument. -/
theorem C5_tokenize_rules :
    (parse_command "grep -r --include=*.py 'foo' src" =
      { command := "grep -r --include=*.py 'foo' src", base_command := "grep",
        arguments := ["foo", "src"], flags := ["-r"],
        options := [("--include", "*.py")], redirections := [] })
    ∧ (∀ p q rest acc, p ∈ redirOps →
        classifyLoop (p :: q :: rest) acc =
          classifyLoop rest { acc with redirections := acc.redirections ++ [(p, q)] })
    ∧ (∀ p acc, p ∈ redirOps →
        classifyLoop [p] acc = { acc with redirections := acc.redirections ++ [(p, "")] })
    ∧ (∀ p rest acc, pyStartsWith p "-" = true → pyContainsChar p '=' = true →
        classifyLoop (p :: rest) acc =
          classifyLoop rest
            { acc with options := insertOption acc.options (splitEq p).1 (splitEq p).2 })
    ∧ (∀ p q rest acc, pyStartsWith p "-" = true → pyContainsChar p '=' = false →
        pyStartsWith q "-" = false →
        classifyLoop (p :: q :: rest) acc =
          classifyLoop rest { acc with options := insertOption acc.options p q })
    ∧ (∀ p q rest acc, pyStartsWith p "-" = true → pyContainsChar p '=' = false →
        pyStartsWith q "-" = true →
        classifyLoop (p :: q :: rest) acc =
          classifyLoop (q :: rest) { acc with flags := acc.flags ++ [p] })
    ∧ (∀ p acc, pyStartsWith p "-" = true → pyContainsChar p '=' = false →
        classifyLoop [p] acc = { acc with flags := acc.flags ++ [p] })
    ∧ (∀ p rest acc, p ∉ redirOps → pyStartsWith p "-" = false →
        classifyLoop (p :: rest) acc =
          classifyLoop rest { acc with arguments := acc.arguments ++ [p] }) := by
  refine ⟨by decide, ?_, ?_, ?_, ?_, ?_, ?_, ?_⟩
  · intro p q rest acc hp
    simp only [classifyLoop, if_pos hp]
  · intro p acc hp
    simp only [classifyLoop, if_pos hp]
  · intro p rest acc hdash heq
    have hnr := startsDash_not_redir p hdash
    cases rest <;> (simp only [classifyLoop]; rw [if_neg hnr, if_pos hdash, if_pos heq])
  · intro p q rest acc hdash heq hq
    have hnr := startsDash_not_redir p hdash
    simp only [classifyLoop]
    rw [if_neg hnr, if_pos hdash, if_neg (by simp [heq]), if_pos (by simp [hq])]
  · intro p q rest acc hdash heq hq
    have hnr := startsDash_not_redir p hdash
    simp only [classifyLoop]
    rw [if_neg hnr, if_pos hdash, if_neg (by simp [heq]), if_neg (by simp [hq])]
  · intro p acc hdash heq
    have hnr := startsDash_not_redir p hdash
    simp only [classifyLoop]
    rw [if_neg hnr, if_pos hdash, if_neg (by simp [heq])]
  · intro p rest acc hnr hdash
    cases rest <;> (simp only [classifyLoop]; rw [if_neg hnr, if_neg (by simp [hdash])])

/-- Witness for C5, instantiating every hypothesis-bearing clause at concrete
tokens. -/
theorem C5_tokenize_rules_witness :
    (classifyLoop [">", "b"] emptyParsed =
      classifyLoop [] { emptyParsed with redirections := [(">", "b")] })
    ∧ (classifyLoop ["<"] emptyParsed =
        { emptyParsed with redirections := [("<", "")] })
    ∧ (classifyLoop ["--include=*.py"] emptyParsed =
        classifyLoop [] { emptyParsed with options := [("--include", "*.py")] })
    ∧ (classifyLoop ["--out", "x"] emptyParsed =
        classifyLoop [] { emptyParsed with options := [("--out", "x")] })
    ∧ (classifyLoop ["-r", "-v"] emptyParsed =
        classifyLoop ["-v"] { emptyParsed with flags := ["-r"] })
    ∧ (classifyLoop ["-r"] emptyParsed = { emptyParsed with flags := ["-r"] })
    ∧ (classifyLoop ["src"] emptyParsed =
        classifyLoop [] { emptyParsed with arguments := ["src"] }) := by
  refine ⟨?_, ?_, ?_, ?_, ?_, ?_, ?_⟩
  · exact C5_tokenize_rules.2.1 ">" "b" [] emptyParsed (by decide)
  · exact C5_tokenize_rules.2.2.1 "<" emptyParsed (by decide)
  · have h := C5_tokenize_rules.2.2.2.1 "--include=*.py" [] emptyParsed
      (by decide) (by decide)
    simpa using h
  · exact C5_tokenize_rules.2.2.2.2.1 "--out" "x" [] emptyParsed
      (by decide) (by decide) (by decide)
  · exact C5_tokenize_rules.2.2.2.2.2.1 "-r" "-v" [] emptyParsed
      (by decide) (by decide) (by decide)
  · exact C5_tokenize_rules.2.2.2.2.2.2.1 "-r" emptyParsed (by decide) (by decide)
  · exact C5_tokenize_rules.2.2.2.2.2.2.2 "src" [] emptyParsed (by decide) (by decide)

/-- C4 counterexample: for failed base command `lls` with category
`command_not_found` the suggester's candidate list is empty — `ls` is not
proposed at all, because `lls` appears in neither static table. -/
theorem C4_counterexample :
    suggest_command_fixes "lls" "command_not_found" = [] := by decide

/-- C4 (amended): `lls` is absent from both the static alternatives table and
the static typo table, so its candidate list is empty and its correction is
left to the external language-model call; for any base command that is in the
static typo table (e.g. `sl`), the typo-table correction is placed first in
the candidate list. -/
theorem C4_typo_table_first :
    (lookupAssoc typoCorrections "lls" = none ∧
     lookupAssoc alternativesTable "lls" = none)
    ∧ (∀ cmd corr, (cmd, corr) ∈ typoCorrections →
        (suggest_command_fixes cmd "command_not_found").head? = some corr) := by
  refine ⟨by decide, ?_⟩
  intro cmd corr h
  simp only [typoCorrections, List.mem_cons, List.not_mem_nil, or_false] at h
  rcases h with h | h | h | h | h | h | h | h | h <;>
    (injection h with h1 h2; subst h1; subst h2; decide)

/-- Witness for C4: the typo-table command `sl` gets its correction `ls`
first. -/
theorem C4_typo_table_first_witness :
    (suggest_command_fixes "sl" "command_not_found").head? = some "ls" :=
  C4_typo_table_first.2 "sl" "ls" (by decide)

/-- C6 counterexample: `validate_command_safety` reports
`"curl http://a.com; ls"` unsafe although it matches no deny-list entry and
contains no device-path redirection — the verdict comes from the extra
download-plus-separator rule, so "unsafe only on deny-list matches and device
redirection" is false. -/
theorem C6_counterexample :
    validate_command_safety "curl http://a.com; ls" =
      (false, "Command downloads and executes content from the internet")
    ∧ (∀ p ∈ dangerousSubstrings,
        pySubstr p (pyLower "curl http://a.com; ls") = false)
    ∧ pySubstr " > /dev/" (pyLower "curl http://a.com; ls") = false
    ∧ pySubstr " >> /dev/" (pyLower "curl http://a.com; ls") = false := by
  exact ⟨by decide, by decide, by decide, by decide⟩

/-- C6 (amended): `isSafe("rm -rf /")` is unsafe and `isSafe("ls -la")` is
safe under both safety checks; the classifier's `is_safe_command` fails
closed exactly on regex matches of its fixed deny-list (it has no
device-redirection rule), and the processor's `validate_command_safety` fails
closed exactly on substring matches of its deny-list, on output redirection
to a `/dev/` path, or on a command mentioning curl/wget together with a pipe
or a semicolon; everything else is treated as safe. -/
theorem C6_safety_characterization :
    ((is_safe_command "rm -rf /").1 = false ∧ (is_safe_command "ls -la").1 = true ∧
     (validate_command_safety "rm -rf /").1 = false ∧
     (validate_command_safety "ls -la").1 = true)
    ∧ (∀ c, (is_safe_command c).1 = false ↔
        ∃ p ∈ dangerousPatterns, reSearch p.1 c = true)
    ∧ (∀ c, (validate_command_safety c).1 = false ↔
        ((∃ p ∈ dangerousSubstrings, pySubstr p (pyLower c) = true) ∨
         (pySubstr " > /dev/" (pyLower c) = true ∨
          pySubstr " >> /dev/" (pyLower c) = true) ∨
         ((pySubstr "curl" (pyLower c) = true ∨ pySubstr "wget" (pyLower c) = true) ∧
          (pyContainsChar c '|' = true ∨ pyContainsChar c ';' = true)))) := by
  refine ⟨⟨by decide, by decide, by decide, by decide⟩, ?_, ?_⟩
  · intro c
    cases hf : dangerousPatterns.find? (fun p => reSearch p.1 c) with
    | some p =>
        simp only [is_safe_command, hf]
        constructor
        · intro _
          exact ⟨p, List.mem_of_find?_eq_some hf, by
            have := List.find?_some hf
            simpa using this⟩
        · intro _; trivial
    | none =>
        have hall := List.find?_eq_none.mp hf
        simp only [is_safe_command, hf]
        constructor
        · intro hcontra; simp at hcontra
        · rintro ⟨p, hp, hsearch⟩
          exact absurd hsearch (by simpa using hall p hp)
  · intro c
    cases hf : dangerousSubstrings.find? (fun p => pySubstr p (pyLower c)) with
    | some p =>
        simp only [validate_command_safety, hf]
        constructor
        · intro _
          refine Or.inl ⟨p, List.mem_of_find?_eq_some hf, ?_⟩
          have := List.find?_some hf
          simpa using this
        · intro _; trivial
    | none =>
        have hall := List.find?_eq_none.mp hf
        simp only [validate_command_safety, hf]
        by_cases h1 : pySubstr " > /dev/" (pyLower c) = true ∨
            pySubstr " >> /dev/" (pyLower c) = true
        · rw [if_pos h1]
          constructor
          · intro _; exact Or.inr (Or.inl h1)
          · intro _; rfl
        · rw [if_neg h1]
          by_cases h2 : (pySubstr "curl" (pyLower c) = true ∨
              pySubstr "wget" (pyLower c) = true) ∧
              (pyContainsChar c '|' = true ∨ pyContainsChar c ';' = true)
          · rw [if_pos h2]
            constructor
            · intro _; exact Or.inr (Or.inr h2)
            · intro _; rfl
          · rw [if_neg h2]
            constructor
            · intro hcontra; simp at hcontra
            · rintro (⟨p, hp, hsub⟩ | hdev | hdl)
              · exact absurd hsub (by simpa using hall p hp)
              · exact absurd hdev h1
              · exact absurd hdl h2

theorem topicScores_ne_nil (qs : List String) : topicScores qs ≠ [] := by
  simp [topicScores, topicsTable]

theorem update_topic_memory (ctx : ConversationContext) :
    (update_current_topic ctx).conversation_memory = ctx.conversation_memory := by
  obtain ⟨mem, topic⟩ := ctx
  cases mem with
  | nil => rfl
  | cons x l =>
    simp only [update_current_topic]
    split <;> rfl

theorem add_memory (ctx : ConversationContext) (q a : String) (hc : Bool) (t : Int) :
    (add_qa_pair ctx q a hc t).conversation_memory =
      cappedAppend ctx.conversation_memory
        { question := q, answer := a, has_code := hc, timestamp := t } := by
  unfold add_qa_pair
  rw [update_topic_memory]

theorem recordAll_memory (qas : List QAPair) (ctx : ConversationContext) :
    (recordAll ctx qas).conversation_memory =
      qas.foldl cappedAppend ctx.conversation_memory := by
  induction qas generalizing ctx with
  | nil => rfl
  | cons e es ih =>
    show (recordAll (add_qa_pair ctx e.question e.answer e.has_code e.timestamp)
        es).conversation_memory = List.foldl cappedAppend (cappedAppend ctx.conversation_memory e) es
    rw [ih, add_memory]

theorem cappedAppend_length (mem : List QAPair) (qa : QAPair)
    (h : mem.length ≤ 10) : (cappedAppend mem qa).length ≤ 10 := by
  have hl : (mem ++ [qa]).length = mem.length + 1 := by simp
  unfold cappedAppend
  by_cases hlen : 10 < (mem ++ [qa]).length
  · rw [if_pos hlen, List.length_drop, hl]
    omega
  · rw [if_neg hlen]
    exact le_of_not_lt hlen

theorem cappedAppend_ne_nil (mem : List QAPair) (qa : QAPair) :
    cappedAppend mem qa ≠ [] := by
  have hl : (mem ++ [qa]).length = mem.length + 1 := by simp
  unfold cappedAppend
  by_cases hlen : 10 < (mem ++ [qa]).length
  · rw [if_pos hlen]
    intro hcontra
    have := congrArg List.length hcontra
    rw [List.length_drop, hl] at this
    simp at this
    omega
  · rw [if_neg hlen]
    simp

/-- C7: the stored exchange sequence never exceeds 10 entries, and eviction
is strict FIFO: after recording 11 exchanges from an empty context, the
stored memory is exactly exchanges 2..11 in insertion order (so the count is
10), and the original first exchange is absent whenever it differs from the
later ones. -/
theorem C7_fifo_cap :
    (∀ ctx q a hc t, ctx.conversation_memory.length ≤ 10 →
      (add_qa_pair ctx q a hc t).conversation_memory.length ≤ 10)
    ∧ (∀ e1 e2 e3 e4 e5 e6 e7 e8 e9 e10 e11 : QAPair,
        (recordAll emptyContext
            [e1, e2, e3, e4, e5, e6, e7, e8, e9, e10, e11]).conversation_memory =
          [e2, e3, e4, e5, e6, e7, e8, e9, e10, e11])
    ∧ (∀ e1 e2 e3 e4 e5 e6 e7 e8 e9 e10 e11 : QAPair,
        e1 ∉ [e2, e3, e4, e5, e6, e7, e8, e9, e10, e11] →
        e1 ∉ (recordAll emptyContext
            [e1, e2, e3, e4, e5, e6, e7, e8, e9, e10, e11]).conversation_memory) := by
  have h2 : ∀ e1 e2 e3 e4 e5 e6 e7 e8 e9 e10 e11 : QAPair,
      (recordAll emptyContext
          [e1, e2, e3, e4, e5, e6, e7, e8, e9, e10, e11]).conversation_memory =
        [e2, e3, e4, e5, e6, e7, e8, e9, e10, e11] := by
    intro e1 e2 e3 e4 e5 e6 e7 e8 e9 e10 e11
    rw [recordAll_memory]
    simp [cappedAppend, emptyContext]
  refine ⟨?_, h2, ?_⟩
  · intro ctx q a hc t h
    rw [add_memory]
    exact cappedAppend_length _ _ h
  · intro e1 e2 e3 e4 e5 e6 e7 e8 e9 e10 e11 h
    rw [h2 e1 e2 e3 e4 e5 e6 e7 e8 e9 e10 e11]
    exact h

/-- Witness for C7 at concrete exchanges (timestamps make them distinct). -/
theorem C7_fifo_cap_witness :
    (add_qa_pair emptyContext "q" "a" false 0).conversation_memory.length ≤ 10
    ∧ gitQ1 ∉ (recordAll emptyContext
        [gitQ1, gitQ2, gitQ3, gitQ2, gitQ3, gitQ2, gitQ3, gitQ2, gitQ3, gitQ2,
          gitQ3]).conversation_memory :=
  ⟨C7_fifo_cap.1 emptyContext "q" "a" false 0 (by decide),
   C7_fifo_cap.2.2 gitQ1 gitQ2 gitQ3 gitQ2 gitQ3 gitQ2 gitQ3 gitQ2 gitQ3 gitQ2
     gitQ3 (by decide)⟩

theorem update_topic_formula (ctx : ConversationContext)
    (h : ctx.conversation_memory ≠ []) :
    (update_current_topic ctx).current_topic =
      if 0 < maxScore (topicScores (recentQuestions ctx)) then
        pyMaxByList (topicScores (recentQuestions ctx))
      else ctx.current_topic := by
  obtain ⟨mem, topic⟩ := ctx
  cases mem with
  | nil => exact absurd rfl h
  | cons x l =>
    simp only [update_current_topic]
    by_cases hpos : 0 < maxScore (topicScores (recentQuestions
        { conversation_memory := x :: l, current_topic := topic }))
    · rw [if_pos ⟨topicScores_ne_nil _, hpos⟩, if_pos hpos]
    · rw [if_neg (fun hc => hpos hc.2), if_neg hpos]

theorem recentQuestions_nil_iff (ctx : ConversationContext) :
    recentQuestions ctx = [] ↔ ctx.conversation_memory = [] := by
  constructor
  · intro h
    have h1 : ctx.conversation_memory.drop (ctx.conversation_memory.length - 3) = [] := by
      have h' := h
      simp only [recentQuestions, lastN, List.map_eq_nil_iff] at h'
      exact h'
    have h2 : ctx.conversation_memory.length ≤ ctx.conversation_memory.length - 3 :=
      List.drop_eq_nil_iff.mp h1
    have h3 : ctx.conversation_memory.length = 0 := by omega
    exact List.length_eq_zero.mp h3
  · intro h
    simp [recentQuestions, lastN, h]

theorem pyMaxBy_snd_eq_maxScore (s : String × Nat) (ss : List (String × Nat)) :
    (pyMaxBy Prod.snd s ss).2 = maxScore (s :: ss) := by
  refine (foldl_max_eq ((s :: ss).map Prod.snd) (pyMaxBy Prod.snd s ss).2
    (List.mem_map_of_mem Prod.snd (pyMaxBy_mem Prod.snd s ss)) ?_).symm
  intro v hv
  obtain ⟨y, hy, rfl⟩ := List.mem_map.mp hv
  exact pyMaxBy_le Prod.snd s ss y hy

/-- C8: each `add_qa_pair` recomputes the topic from the last 3 questions
only; when the maximal bucket score is zero the prior topic is left
unchanged, and when it is positive the topic becomes a bucket attaining the
maximal score.  Concretely, three questions containing "git", "commit",
"branch" set the topic to the git bucket, and a following unrelated question
scoring zero in every bucket does not unset it. -/
theorem C8_topic_update :
    (∀ ctx, maxScore (topicScores (recentQuestions ctx)) = 0 →
      (update_current_topic ctx).current_topic = ctx.current_topic)
    ∧ (∀ ctx, ctx.conversation_memory ≠ [] →
        0 < maxScore (topicScores (recentQuestions ctx)) →
        ∃ p ∈ topicScores (recentQuestions ctx),
          (update_current_topic ctx).current_topic = some p.1 ∧
            p.2 = maxScore (topicScores (recentQuestions ctx)))
    ∧ (∀ ctx₁ ctx₂ : ConversationContext,
        recentQuestions ctx₁ = recentQuestions ctx₂ →
        ctx₁.current_topic = ctx₂.current_topic →
        (update_current_topic ctx₁).current_topic =
          (update_current_topic ctx₂).current_topic)
    ∧ ((recordAll emptyContext [gitQ1, gitQ2, gitQ3]).current_topic = some "git"
       ∧ (add_qa_pair (recordAll emptyContext [gitQ1, gitQ2, gitQ3])
            "hello there" "a4" false 4).current_topic = some "git"
       ∧ (topicScores ["hello there"]).map Prod.snd = [0, 0, 0, 0, 0, 0, 0]) := by
  refine ⟨?_, ?_, ?_, by decide, by decide, by decide⟩
  · intro ctx h0
    by_cases hm : ctx.conversation_memory = []
    · simp [update_current_topic, hm]
    · rw [update_topic_formula ctx hm, if_neg (by simp [h0])]
  · intro ctx hm hpos
    rw [update_topic_formula ctx hm, if_pos hpos]
    cases hs : topicScores (recentQuestions ctx) with
    | nil => exact absurd hs (topicScores_ne_nil _)
    | cons s ss =>
        refine ⟨pyMaxBy Prod.snd s ss, ?_, rfl, ?_⟩
        · exact pyMaxBy_mem Prod.snd s ss
        · exact pyMaxBy_snd_eq_maxScore s ss
  · intro ctx₁ ctx₂ hq ht
    by_cases hm1 : ctx₁.conversation_memory = []
    · have hq1 : recentQuestions ctx₁ = [] := (recentQuestions_nil_iff ctx₁).mpr hm1
      have hm2 : ctx₂.conversation_memory = [] :=
        (recentQuestions_nil_iff ctx₂).mp (hq ▸ hq1)
      simp [update_current_topic, hm1, hm2, ht]
    · have hm2 : ctx₂.conversation_memory ≠ [] := by
        intro hc
        exact hm1 ((recentQuestions_nil_iff ctx₁).mp
          (hq.trans ((recentQuestions_nil_iff ctx₂).mpr hc)))
      rw [update_topic_formula ctx₁ hm1, update_topic_formula ctx₂ hm2, hq, ht]

/-- Witness for C8, instantiating the hypothesis-bearing clauses. -/
theorem C8_topic_update_witness :
    ((update_current_topic emptyContext).current_topic = emptyContext.current_topic)
    ∧ (∃ p ∈ topicScores (recentQuestions
          { conversation_memory := [gitQ1], current_topic := none }),
        (update_current_topic
            { conversation_memory := [gitQ1], current_topic := none }).current_topic =
          some p.1 ∧
        p.2 = maxScore (topicScores (recentQuestions
          { conversation_memory := [gitQ1], current_topic := none })))
    ∧ ((update_current_topic
          { conversation_memory := [gitQ1], current_topic := none }).current_topic =
        (update_current_topic
          { conversation_memory := [{ gitQ1 with answer := "zz" }],
            current_topic := none }).current_topic) :=
  ⟨C8_topic_update.1 emptyContext (by decide),
   C8_topic_update.2.1 { conversation_memory := [gitQ1], current_topic := none }
     (by decide) (by decide),
   C8_topic_update.2.2.1 { conversation_memory := [gitQ1], current_topic := none }
     { conversation_memory := [{ gitQ1 with answer := "zz" }], current_topic := none }
     (by decide) (by decide)⟩

/-- C10: when two or more topic buckets tie for the maximal nonzero keyword
score over the last 3 questions, `add_qa_pair` sets the topic to the first
bucket attaining the maximum in the fixed declaration order git, python,
javascript, docker, linux, database, web — i.e. the `find?` over the ordered
scores list. -/
theorem C10_tie_break (ctx : ConversationContext) (q a : String) (hc : Bool)
    (t : Int)
    (hpos : 0 < maxScore (topicScores (recentQuestions (add_qa_pair ctx q a hc t)))) :
    (add_qa_pair ctx q a hc t).current_topic =
      ((topicScores (recentQuestions (add_qa_pair ctx q a hc t))).find?
        (fun p => p.2 = maxScore
          (topicScores (recentQuestions (add_qa_pair ctx q a hc t))))).map
        Prod.fst := by
  set ctx' : ConversationContext :=
    { ctx with conversation_memory :=
        cappedAppend ctx.conversation_memory ⟨q, a, hc, t⟩ } with hctx'
  have hmemeq : recentQuestions (add_qa_pair ctx q a hc t) = recentQuestions ctx' := by
    simp [recentQuestions, add_memory, hctx']
  have hne : ctx'.conversation_memory ≠ [] := cappedAppend_ne_nil _ _
  rw [hmemeq] at hpos ⊢
  show (update_current_topic ctx').current_topic = _
  rw [update_topic_formula ctx' hne, if_pos hpos]
  cases hs : topicScores (recentQuestions ctx') with
  | nil => exact absurd hs (topicScores_ne_nil _)
  | cons s ss =>
      rw [← pyMaxBy_snd_eq_maxScore s ss]
      rw [pyMaxBy_first Prod.snd s ss]
      rfl

/-- Witness for C10: the question "git python" ties git and python at score
one; git wins, being first in declaration order. -/
theorem C10_tie_break_witness :
    (add_qa_pair emptyContext "git python" "ans" false 0).current_topic =
      ((topicScores (recentQuestions
          (add_qa_pair emptyContext "git python" "ans" false 0))).find?
        (fun p => p.2 = maxScore (topicScores (recentQuestions
          (add_qa_pair emptyContext "git python" "ans" false 0))))).map Prod.fst
    ∧ (add_qa_pair emptyContext "git python" "ans" false 0).current_topic =
        some "git" :=
  ⟨C10_tie_break emptyContext "git python" "ans" false 0 (by decide), by decide⟩

theorem scanTemp_all_stale (w : World) (l : List FileRec)
    (h : ∀ f ∈ l, w.now - f.mtime > 30) : scanTemp w l = none := by
  induction l with
  | nil => rfl
  | cons f fs ih =>
    have hf := h f (List.mem_cons_self f fs)
    simp only [scanTemp, if_pos hf]
    exact ih (fun g hg => h g (List.mem_cons_of_mem f hg))

theorem scanTemp_cleanup (w : World) (l : List FileRec) (e : String) (w' : World)
    (h : scanTemp w l = some (e, w')) : w' = cleanup_temp_files w := by
  induction l with
  | nil => simp [scanTemp] at h
  | cons f fs ih =>
    by_cases hst : w.now - f.mtime > 30
    · rw [scanTemp, if_pos hst] at h
      exact ih h
    · rw [scanTemp, if_neg hst] at h
      by_cases hec : pyStrip f.content = ""
      · rw [if_pos hec] at h
        exact ih h
      · rw [if_neg hec] at h
        injection h with h1
        injection h1 with _ hw
        exact hw.symm

theorem scanTemp_some_fresh (w : World) (l : List FileRec) (e : String) (w' : World)
    (h : scanTemp w l = some (e, w')) :
    ∃ f ∈ l, w.now - f.mtime ≤ 30 ∧
      (e = pyStrip f.content ∨ ∃ cf, w.lastCommand = some cf ∧
        e = pyStrip f.content ++ "\nFailed command: " ++ pyStrip cf.content) := by
  induction l with
  | nil => simp [scanTemp] at h
  | cons f fs ih =>
    by_cases hst : w.now - f.mtime > 30
    · rw [scanTemp, if_pos hst] at h
      obtain ⟨g, hg, hfresh, he⟩ := ih h
      exact ⟨g, List.mem_cons_of_mem f hg, hfresh, he⟩
    · rw [scanTemp, if_neg hst] at h
      by_cases hec : pyStrip f.content = ""
      · rw [if_pos hec] at h
        obtain ⟨g, hg, hfresh, he⟩ := ih h
        exact ⟨g, List.mem_cons_of_mem f hg, hfresh, he⟩
      · rw [if_neg hec] at h
        injection h with h1
        injection h1 with he _
        refine ⟨f, List.mem_cons_self f fs, le_of_not_lt hst, ?_⟩
        cases hcf : w.lastCommand with
        | none =>
            simp only [hcf] at he
            exact Or.inl he.symm
        | some cf =>
            simp only [hcf] at he
            by_cases happ : pyStrip cf.content ≠ "" ∧
                ¬ pySubstr (pyStrip cf.content) (pyStrip f.content) = true
            · rw [if_pos happ] at he
              exact Or.inr ⟨cf, rfl, he.symm⟩
            · rw [if_neg happ] at he
              exact Or.inl he.symm

/-- C2 counterexample: a `LastError` record aged exactly 30 seconds is still
selected by the evidence-file strategy (the code rejects only `age > 30`), so
"a record aged exactly at the threshold is rejected as stale" is false for
the LastError family. -/
theorem C2_counterexample :
    (get_error_from_temp_file c2World).map Prod.fst = some "stale" ∧
    c2World.now - ((c2World.lastError).getD ⟨"", 0⟩).mtime = 30 := by
  exact ⟨by decide, by decide⟩

/-- C2 (amended): the evidence-file strategy never selects a LastError-family
record strictly older than 30 seconds (one aged exactly 30 is still
accepted), and any text it reports comes from a record aged at most 30
seconds; the stderr-capture strategy never selects a capture aged 60 seconds
or more (so exactly-at-threshold is rejected there), and any text it reports
comes from a capture strictly younger than 60 seconds. -/
theorem C2_freshness_windows :
    (∀ w : World, (∀ f ∈ tempCandidates w, w.now - f.mtime > 30) →
      get_error_from_temp_file w = none)
    ∧ (∀ w e w', get_error_from_temp_file w = some (e, w') →
        ∃ f ∈ tempCandidates w, w.now - f.mtime ≤ 30 ∧
          (e = pyStrip f.content ∨ ∃ cf, w.lastCommand = some cf ∧
            e = pyStrip f.content ++ "\nFailed command: " ++ pyStrip cf.content))
    ∧ (∀ w : World, (∀ f ∈ w.stderrFiles, w.now - f.mtime ≥ 60) →
        get_error_from_stderr_capture w = none)
    ∧ (∀ w s, get_error_from_stderr_capture w = some s →
        ∃ f ∈ w.stderrFiles, w.now - f.mtime < 60 ∧ s = pyStrip f.content) := by
  refine ⟨?_, ?_, ?_, ?_⟩
  · intro w h
    exact scanTemp_all_stale w _ h
  · intro w e w' h
    exact scanTemp_some_fresh w _ e w' h
  · intro w h
    obtain ⟨le, se, eo, ep, lc, lec, cc, sf, now, hcmd, hcode, sh, pr⟩ := w
    cases sf with
    | nil => rfl
    | cons f fs =>
        simp only [get_error_from_stderr_capture]
        have hstale := h _ (pyMaxBy_mem FileRec.mtime f fs)
        rw [if_neg (not_lt.mpr hstale)]
  · intro w s h
    obtain ⟨le, se, eo, ep, lc, lec, cc, sf, now, hcmd, hcode, sh, pr⟩ := w
    cases sf with
    | nil => simp [get_error_from_stderr_capture] at h
    | cons f fs =>
        simp only [get_error_from_stderr_capture] at h
        by_cases hfresh : now - (pyMaxBy FileRec.mtime f fs).mtime < 60
        · rw [if_pos hfresh] at h
          by_cases hne : pyStrip (pyMaxBy FileRec.mtime f fs).content ≠ ""
          · rw [if_pos hne] at h
            exact ⟨pyMaxBy FileRec.mtime f fs, pyMaxBy_mem FileRec.mtime f fs,
              hfresh, (Option.some.inj h).symm⟩
          · rw [if_neg hne] at h
            exact absurd h (by simp)
        · rw [if_neg hfresh] at h
          exact absurd h (by simp)

/-- Witness for C2: a LastError record aged 31 seconds and a stderr capture
aged exactly 60 seconds are both rejected. -/
theorem C2_freshness_windows_witness :
    get_error_from_temp_file c2WitnessWorld = none ∧
    get_error_from_stderr_capture c2WitnessWorld = none :=
  ⟨C2_freshness_windows.1 c2WitnessWorld (by decide),
   C2_freshness_windows.2.2.1 c2WitnessWorld (by decide)⟩

/-- C1 counterexample: consuming a fresh `LastError` record purges the error
family, but the per-process `/tmp/aicmd_error_<pid>` record is not in the
cleanup list, so an immediately following evidence-file attempt still finds a
record instead of falling through. -/
theorem C1_counterexample :
    get_error_from_temp_file c1World = some ("boom", cleanup_temp_files c1World)
    ∧ (get_error_from_temp_file (cleanup_temp_files c1World)).map Prod.fst =
        some "pid error" := by
  exact ⟨by decide, by decide⟩

/-- C1 (amended): after the evidence-file strategy successfully reads a
record, all error-family records (LastError, its simplified variant,
LastCommand, LastExitCode, CurrentCommand) plus the error-output capture are
deleted; provided no per-process `/tmp/aicmd_error_<pid>` record exists (that
file is scanned but never purged), an immediately following resolution
attempt finds no evidence-file record at any later time and falls through to
strategy 2 or later. -/
theorem C1_purge_on_consume :
    ∀ w e w', get_error_from_temp_file w = some (e, w') →
      (w'.lastError = none ∧ w'.simpleError = none ∧ w'.lastCommand = none ∧
       w'.lastExitCode = none ∧ w'.currentCommand = none ∧ w'.errorOutput = none)
      ∧ (w.errorPid = none →
          ∀ t : Int, get_error_from_temp_file { w' with now := t } = none ∧
            detect_last_error { w' with now := t } =
              tryStrategies [strat2E, strat3E, strat4E] { w' with now := t }) := by
  intro w e w' h
  have hw' : w' = cleanup_temp_files w := scanTemp_cleanup w _ e w' h
  subst hw'
  refine ⟨⟨rfl, rfl, rfl, rfl, rfl, rfl⟩, ?_⟩
  intro hpid t
  have hnone : get_error_from_temp_file { cleanup_temp_files w with now := t } = none := by
    unfold get_error_from_temp_file
    have hcand : tempCandidates { cleanup_temp_files w with now := t } = [] := by
      simp [tempCandidates, cleanup_temp_files, hpid]
    rw [hcand]
    rfl
  refine ⟨hnone, ?_⟩
  simp [detect_last_error, tryStrategies, strat1E, hnone]

/-- Witness for C1 on a world holding only a fresh LastError record. -/
theorem C1_purge_on_consume_witness :
    get_error_from_temp_file c1WitnessWorld =
      some ("boom", cleanup_temp_files c1WitnessWorld)
    ∧ ((cleanup_temp_files c1WitnessWorld).lastError = none ∧
       (cleanup_temp_files c1WitnessWorld).simpleError = none ∧
       (cleanup_temp_files c1WitnessWorld).lastCommand = none ∧
       (cleanup_temp_files c1WitnessWorld).lastExitCode = none ∧
       (cleanup_temp_files c1WitnessWorld).currentCommand = none ∧
       (cleanup_temp_files c1WitnessWorld).errorOutput = none)
    ∧ get_error_from_temp_file
        { cleanup_temp_files c1WitnessWorld with now := 100 } = none := by
  have h : get_error_from_temp_file c1WitnessWorld =
      some ("boom", cleanup_temp_files c1WitnessWorld) := by decide
  have hc := C1_purge_on_consume c1WitnessWorld "boom"
    (cleanup_temp_files c1WitnessWorld) h
  exact ⟨h, hc.1, (hc.2 (by decide) 100).1⟩

/-- C3: `detect_last_error` is the first-success-wins chain of exactly the
four strategies evidence-file, shell-history, exit-code probe,
stderr-capture, in that order; a strategy that raises is treated as no
result and never propagates; a strategy returning a non-empty string stops
the chain; and when all four yield nothing the result is `none`. -/
theorem C3_strategy_chain :
    (∀ w, detect_last_error w =
      tryStrategies [strat1E, strat2E, strat3E, strat4E] w)
    ∧ (∀ (w : World) (s : World → Except String (Option String)) rest e,
        s w = .error e → tryStrategies (s :: rest) w = tryStrategies rest w)
    ∧ (∀ (w : World) (s : World → Except String (Option String)) rest,
        s w = .ok none → tryStrategies (s :: rest) w = tryStrategies rest w)
    ∧ (∀ (w : World) (s : World → Except String (Option String)) rest r,
        s w = .ok (some r) → r ≠ "" → tryStrategies (s :: rest) w = some r)
    ∧ (∀ w, (get_error_from_temp_file w).map Prod.fst = none →
        get_error_from_shell_history w = none →
        get_error_from_exit_code w = none →
        get_error_from_stderr_capture w = none →
        detect_last_error w = none) := by
  refine ⟨fun w => rfl, ?_, ?_, ?_, ?_⟩
  · intro w s rest e h
    simp [tryStrategies, h]
  · intro w s rest h
    simp [tryStrategies, h]
  · intro w s rest r h hr
    simp [tryStrategies, h, hr]
  · intro w h1 h2 h3 h4
    simp [detect_last_error, tryStrategies, strat1E, strat2E, strat3E, strat4E,
      h1, h2, h3, h4]

/-- Witness for C3: a world with no evidence resolves to `none`; an erroring
strategy falls through to a succeeding one. -/
theorem C3_strategy_chain_witness :
    detect_last_error emptyWorld = none
    ∧ tryStrategies
        [fun _ => .error "boom", fun _ => .ok (some "hit")] emptyWorld = some "hit" := by
  constructor
  · exact C3_strategy_chain.2.2.2.2 emptyWorld (by decide) (by decide) (by decide)
      (by decide)
  · have h1 := C3_strategy_chain.2.1 emptyWorld (fun _ => .error "boom")
      [fun _ => .ok (some "hit")] "boom" rfl
    have h2 := C3_strategy_chain.2.2.2.1 emptyWorld (fun _ => .ok (some "hit")) []
      "hit" rfl (by decide)
    rw [h1, h2]

end Aicmd
